import Mathlib

/-!
Verification of the embed_star worker against its specification.

This file gives a shallow embedding of the parts of the source that the
checked properties talk about, and proves (or refutes) each property.

Modelling conventions used throughout:
* Rust `f32`/`f64` values are modelled as exact rationals (`Rat`); `f32`
  values that can be non-finite are modelled by the inductive `F32` below.
  The embedded computations mirror the source expressions; rounding of
  floating-point arithmetic is not modelled.
* `Instant` / `DateTime` timestamps are modelled as natural numbers, and
  operations that read the clock take the current time `now : Nat` as an
  explicit argument.
* Fallible operations return `Except`; external effects (database calls,
  provider calls) are modelled by explicit oracles passed as arguments,
  and where a property is about effect order the function returns the
  trace of events it performs.
-/

set_option autoImplicit false

namespace EmbedStar

/-- Error type of the service, translated from `EmbedError` in `src/error.rs`.
Payload values of foreign types (database, HTTP, anyhow errors) are modelled
as their message strings. -/
inductive EmbedError where
  | Database (msg : String)
  | EmbeddingProvider (msg : String)
  | Configuration (msg : String)
  | Http (msg : String)
  | RateLimitExceeded (provider : String)
  | InvalidDimension (expected actual : Nat)
  | ServiceUnavailable (msg : String)
  | Internal (msg : String)
  deriving DecidableEq

/-- `EmbedError::is_retryable` from `src/error.rs`: a `matches!` on the
`Database`, `Http`, `RateLimitExceeded` and `ServiceUnavailable` variants. -/
def EmbedError.is_retryable : EmbedError → Bool
  | .Database _ => true
  | .Http _ => true
  | .RateLimitExceeded _ => true
  | .ServiceUnavailable _ => true
  | _ => false

/-- Owner sub-record of a repository, from `RepoOwner` in `src/models.rs`. -/
structure RepoOwner where
  login : String
  avatar_url : String
  deriving DecidableEq

/-- Repository record, from `Repo` in `src/models.rs`.  The embedding vector
elements are modelled as rationals and timestamps as naturals. -/
structure Repo where
  id : String
  github_id : Int
  name : String
  full_name : String
  description : Option String
  url : String
  stars : Nat
  language : Option String
  owner : RepoOwner
  is_private : Bool
  created_at : Nat
  updated_at : Nat
  embedding : Option (List Rat)
  embedding_generated_at : Option Nat
  deriving DecidableEq

/-- `Repo::needs_embedding` from `src/models.rs`:
`embedding.is_none() || embedding_generated_at.map(|t| updated_at > t).unwrap_or(true)`. -/
def Repo.needs_embedding (r : Repo) : Bool :=
  r.embedding.isNone ||
    ((r.embedding_generated_at.map (fun t => decide (r.updated_at > t))).getD true)

/-- UTF-8 byte width of a Unicode code point, as a Rust `char` is encoded
inside a `String`. -/
def utf8Size (c : Nat) : Nat :=
  if c < 0x80 then 1 else if c < 0x800 then 2 else if c < 0x10000 then 3 else 4

/-- Rust `str::len` — the UTF-8 byte length — of a text modelled as the list
of its code points. -/
def strLen (s : List Nat) : Nat := (s.map utf8Size).sum

/-- The three-character ellipsis `"..."` appended by truncation, as code
points. -/
def ellipsis : List Nat := [46, 46, 46]

/-- `Embedder::truncate_text` from `src/embedder.rs`.  The guard compares the
byte length (`text.len()`) with `token_limit`, while the truncation itself
keeps the first `token_limit - 3` characters (`text.chars().take(..)`) and
appends `"..."`.  The subtraction is natural-number truncated subtraction;
the source's `usize` subtraction underflows for `token_limit < 3`, a case no
theorem below relies on. -/
def truncate_text (token_limit : Nat) (text : List Nat) : List Nat :=
  if strLen text ≤ token_limit then text
  else text.take (token_limit - 3) ++ ellipsis

/-- Recursion core of `with_retry` from `src/retry.rs`.  The operation is
modelled by the deterministic schedule `op : Nat → Except EmbedError T`
giving the outcome of each invocation; `remaining` is the number of retries
still allowed (`max_retries - retry_count`) and `k` the index of the next
invocation.  The source returns the error as soon as it is non-retryable or
the retry budget is exhausted; because the backoff is built with
`max_elapsed_time: None`, `next_backoff` always yields a duration, so the
`break`/`last_error` path of the source is unreachable and sleeping has no
effect on the result.  The second component of the result is the total
number of invocations performed. -/
def retryFrom {T : Type} (op : Nat → Except EmbedError T) :
    Nat → Nat → Except EmbedError T × Nat
  | remaining, k =>
    match op k with
    | .ok v => (.ok v, k + 1)
    | .error e =>
      if e.is_retryable then
        match remaining with
        | 0 => (.error e, k + 1)
        | r + 1 => retryFrom op r (k + 1)
      else (.error e, k + 1)

/-- `with_retry` from `src/retry.rs`, applied to a schedule of operation
outcomes: at most `max_retries` retries after the first invocation. -/
def with_retry {T : Type} (max_retries : Nat) (op : Nat → Except EmbedError T) :
    Except EmbedError T × Nat :=
  retryFrom op max_retries 0

/-- Circuit breaker states, from `CircuitState` in `src/circuit_breaker.rs`. -/
inductive CircuitState where
  | Closed
  | Open
  | HalfOpen
  deriving DecidableEq

/-- Per-breaker counters, from `CircuitStats` in `src/circuit_breaker.rs`. -/
structure CircuitStats where
  total_requests : Nat
  failed_requests : Nat
  successful_requests : Nat
  consecutive_failures : Nat
  last_failure_time : Option Nat
  state_changes : Nat
  deriving DecidableEq

/-- Breaker configuration, from `CircuitBreakerConfig` in
`src/circuit_breaker.rs`; the `f64` failure-rate threshold is a rational. -/
structure CircuitBreakerConfig where
  failure_threshold : Nat
  timeout_duration : Nat
  success_threshold : Nat
  failure_rate_threshold : Rat
  min_requests : Nat
  deriving DecidableEq

/-- One circuit breaker, from `CircuitBreaker` in `src/circuit_breaker.rs`. -/
structure CircuitBreaker where
  state : CircuitState
  stats : CircuitStats
  config : CircuitBreakerConfig
  last_state_change : Nat
  half_open_successes : Nat
  deriving DecidableEq

/-- `CircuitBreaker::transition_to`: records a state change (no-op when the
state is unchanged), stamping the change with the current time `now`. -/
def CircuitBreaker.transition_to (cb : CircuitBreaker) (now : Nat)
    (new_state : CircuitState) : CircuitBreaker :=
  if cb.state ≠ new_state then
    { cb with
      state := new_state
      stats := { cb.stats with state_changes := cb.stats.state_changes + 1 }
      last_state_change := now
      half_open_successes :=
        if new_state = .HalfOpen then 0 else cb.half_open_successes }
  else cb

/-- `CircuitBreaker::should_allow_request`: in `Open`, moves to `HalfOpen`
once the timeout has elapsed.  Returns the decision and the updated breaker. -/
def CircuitBreaker.should_allow_request (cb : CircuitBreaker) (now : Nat) :
    Bool × CircuitBreaker :=
  match cb.state with
  | .Closed => (true, cb)
  | .Open =>
    if now - cb.last_state_change ≥ cb.config.timeout_duration then
      (true, cb.transition_to now .HalfOpen)
    else (false, cb)
  | .HalfOpen => (true, cb)

/-- `CircuitBreaker::record_success`: bumps counters, resets the consecutive
failure count, and in `HalfOpen` closes the circuit after
`success_threshold` successes. -/
def CircuitBreaker.record_success (cb : CircuitBreaker) (now : Nat) :
    CircuitBreaker :=
  let cb1 :=
    { cb with
      stats :=
        { cb.stats with
          total_requests := cb.stats.total_requests + 1
          successful_requests := cb.stats.successful_requests + 1
          consecutive_failures := 0 } }
  match cb1.state with
  | .HalfOpen =>
    let cb2 := { cb1 with half_open_successes := cb1.half_open_successes + 1 }
    if cb2.half_open_successes ≥ cb2.config.success_threshold then
      cb2.transition_to now .Closed
    else cb2
  | _ => cb1

/-- `CircuitBreaker::record_failure`: bumps counters; in `Closed` opens the
circuit when the consecutive-failure threshold is reached, or else when
`min_requests` have been seen and the failure rate reaches the threshold;
in `HalfOpen` any failure reopens the circuit. -/
def CircuitBreaker.record_failure (cb : CircuitBreaker) (now : Nat) :
    CircuitBreaker :=
  let cb1 :=
    { cb with
      stats :=
        { cb.stats with
          total_requests := cb.stats.total_requests + 1
          failed_requests := cb.stats.failed_requests + 1
          consecutive_failures := cb.stats.consecutive_failures + 1
          last_failure_time := some now } }
  match cb1.state with
  | .Closed =>
    if cb1.stats.consecutive_failures ≥ cb1.config.failure_threshold then
      cb1.transition_to now .Open
    else if cb1.stats.total_requests ≥ cb1.config.min_requests then
      if (cb1.stats.failed_requests : Rat) / (cb1.stats.total_requests : Rat) ≥
          cb1.config.failure_rate_threshold then
        cb1.transition_to now .Open
      else cb1
    else cb1
  | .HalfOpen => cb1.transition_to now .Open
  | .Open => cb1

/-- `CircuitBreakerManager::reset`: forces a breaker back to `Closed` and
clears its failure counters. -/
def CircuitBreaker.resetBreaker (cb : CircuitBreaker) (now : Nat) :
    CircuitBreaker :=
  { cb with
    state := .Closed
    stats := { cb.stats with consecutive_failures := 0 }
    half_open_successes := 0
    last_state_change := now }

/-- One cache entry, from `CacheEntry` in `src/embedding_cache.rs`. -/
structure CacheEntry where
  embedding : List Rat
  model : String
  created_at : Nat
  last_accessed : Nat
  access_count : Nat
  deriving DecidableEq

/-- The embedding cache, from `EmbeddingCache` in `src/embedding_cache.rs`.
The `HashMap` of entries is modelled as an association list with distinct
keys, and the `VecDeque` access order as a list whose head is the front
(least recently used end). -/
structure EmbeddingCache where
  entries : List (String × CacheEntry)
  access_order : List String
  max_size : Nat
  ttl : Nat
  deriving DecidableEq

/-- Lookup in the entry map (`HashMap::get`). -/
def findEntry (k : String) : List (String × CacheEntry) → Option CacheEntry
  | [] => none
  | p :: rest => if p.1 = k then some p.2 else findEntry k rest

/-- Removal from the entry map (`HashMap::remove`). -/
def eraseKey (k : String) : List (String × CacheEntry) → List (String × CacheEntry)
  | [] => []
  | p :: rest => if p.1 = k then eraseKey k rest else p :: eraseKey k rest

/-- Insertion into the entry map (`HashMap::insert`): replaces the binding
when the key is present, otherwise adds it. -/
def insertEntry (k : String) (e : CacheEntry) :
    List (String × CacheEntry) → List (String × CacheEntry)
  | [] => [(k, e)]
  | p :: rest => if p.1 = k then (k, e) :: rest else p :: insertEntry k e rest

/-- `VecDeque::retain(|x| x != k)` on the access order. -/
def removeAll (k : String) : List String → List String
  | [] => []
  | x :: rest => if x = k then removeAll k rest else x :: removeAll k rest

/-- Eviction loop at the top of `EmbeddingCache::put`:
`while entries.len() >= max_size { pop_front; remove }`.  The recursion is on
the access-order queue, which the loop pops one key from per iteration; when
the queue is exhausted while the map is still at capacity the source would
spin forever, which cannot happen for the well-formed caches (`CacheWF`)
with `max_size ≥ 1` considered below. -/
def evictLoop (max_size : Nat) :
    List (String × CacheEntry) → List String → List (String × CacheEntry) × List String
  | es, [] => (es, [])
  | es, k :: rest =>
    if es.length ≥ max_size then evictLoop max_size (eraseKey k es) rest
    else (es, k :: rest)

/-- `EmbeddingCache::get` from `src/embedding_cache.rs`: a present entry past
its TTL is removed and a miss returned; a live entry has `last_accessed` and
`access_count` updated, is moved to the most-recently-used end, and its
vector and model are returned. -/
def EmbeddingCache.get (c : EmbeddingCache) (now : Nat) (key : String) :
    Option (List Rat × String) × EmbeddingCache :=
  match findEntry key c.entries with
  | none => (none, c)
  | some e =>
    if now - e.created_at > c.ttl then
      (none,
        { c with
          entries := eraseKey key c.entries
          access_order := removeAll key c.access_order })
    else
      let e' := { e with last_accessed := now, access_count := e.access_count + 1 }
      (some (e.embedding, e.model),
        { c with
          entries := insertEntry key e' c.entries
          access_order := removeAll key c.access_order ++ [key] })

/-- `EmbeddingCache::put` from `src/embedding_cache.rs`: evict from the front
of the access order while at capacity, then insert the fresh entry and push
its key at the back (most-recently-used end). -/
def EmbeddingCache.put (c : EmbeddingCache) (now : Nat) (key : String)
    (embedding : List Rat) (model : String) : EmbeddingCache :=
  let p := evictLoop c.max_size c.entries c.access_order
  { c with
    entries :=
      insertEntry key
        { embedding := embedding, model := model, created_at := now
          last_accessed := now, access_count := 0 } p.1
    access_order := p.2 ++ [key] }

/-- Last-accessed time of a key in the entry map (0 when absent). -/
def lastAccessedOf (es : List (String × CacheEntry)) (k : String) : Nat :=
  ((findEntry k es).map (fun e => e.last_accessed)).getD 0

/-- Well-formedness of a cache state, maintained by the source's operations:
entry keys are distinct, the access-order queue holds exactly the keys of
the map, and it is ordered by non-decreasing `last_accessed` (front = least
recently used).  These are the states reachable from the empty cache when
the clock is monotone. -/
structure CacheWF (c : EmbeddingCache) : Prop where
  keys_nodup : (c.entries.map Prod.fst).Nodup
  order_perm : c.access_order.Perm (c.entries.map Prod.fst)
  sorted : c.access_order.Pairwise
    (fun a b => lastAccessedOf c.entries a ≤ lastAccessedOf c.entries b)

/-- An `f32` value as the validator sees it: a finite value (an exact
rational) or one of the non-finite classes. -/
inductive F32 where
  | val (q : Rat)
  | nan
  | inf
  | neginf
  deriving DecidableEq

/-- Rust `f32::is_finite`. -/
def F32.isFinite : F32 → Bool
  | .val _ => true
  | _ => false

/-- Numeric value of a finite `f32`; junk value 0 on the non-finite classes,
which every use below guards against. -/
def F32.toRat : F32 → Rat
  | .val q => q
  | _ => 0

/-- Errors constructed by `EmbeddingValidator::validate` in
`src/embedding_validation.rs` (the `InvalidEmbedding` and `InvalidDimension`
variants it applies).  Message payloads keep the source's wording but omit
the interpolated numbers. -/
inductive VError where
  | InvalidEmbedding (msg : String)
  | InvalidDimension (expected actual : Nat)
  deriving DecidableEq

/-- The validator of `src/embedding_validation.rs`.  The source field
`max_zero_ratio` is named `max_zero_fraction` here. -/
structure EmbeddingValidator where
  expected_dimension : Option Nat
  min_magnitude : Rat
  max_magnitude : Rat
  max_zero_fraction : Rat
  deriving DecidableEq

/-- Sum of squares of a vector, as accumulated by the source before taking
the square root. -/
def sumSquares (xs : List Rat) : Rat := (xs.map (fun x => x * x)).sum

/-- Share of zero elements: `zero_count as f32 / len as f32`. -/
def zeroFraction (xs : List Rat) : Rat :=
  ((xs.filter (fun x => x == 0)).length : Rat) / (xs.length : Rat)

/-- Mean of the elements: `sum / len`. -/
def meanOf (xs : List Rat) : Rat := xs.sum / (xs.length : Rat)

/-- Variance of the elements: `Σ (x - mean)² / len`. -/
def varianceOf (xs : List Rat) : Rat :=
  ((xs.map (fun x => (x - meanOf xs) ^ 2)).sum) / (xs.length : Rat)

/-- Tail of `EmbeddingValidator::validate` after the empty and dimension
checks: finiteness, magnitude, zero-share and variance checks, in the
source's order.  The square root applied to the sum of squares is passed in
as `sqrtQ`, an arbitrary interpretation of `f32::sqrt`. -/
def validateAfterDim (sqrtQ : Rat → Rat) (v : EmbeddingValidator)
    (embedding : List F32) (context : String) : Except VError Unit :=
  if (embedding.filter (fun x => !x.isFinite)).length > 0 then
    .error (.InvalidEmbedding (context ++ ": Contains non-finite values"))
  else
    let xs := embedding.map F32.toRat
    let magnitude := sqrtQ (sumSquares xs)
    if magnitude < v.min_magnitude then
      .error (.InvalidEmbedding (context ++ ": Magnitude is below minimum"))
    else if magnitude > v.max_magnitude then
      .error (.InvalidEmbedding (context ++ ": Magnitude exceeds maximum"))
    else if zeroFraction xs > v.max_zero_fraction then
      .error (.InvalidEmbedding (context ++ ": too many values are zero"))
    else if varianceOf xs < (1 : Rat) / 1000000 then
      .error (.InvalidEmbedding
        (context ++ ": Variance too low, all values nearly identical"))
    else .ok ()

/-- `EmbeddingValidator::validate` from `src/embedding_validation.rs`: empty
check, optional exact-dimension check, then the remaining checks. -/
def validate (sqrtQ : Rat → Rat) (v : EmbeddingValidator)
    (embedding : List F32) (context : String) : Except VError Unit :=
  if embedding.isEmpty then
    .error (.InvalidEmbedding (context ++ ": Embedding is empty"))
  else
    match v.expected_dimension with
    | some expected_dim =>
      if embedding.length ≠ expected_dim then
        .error (.InvalidDimension expected_dim embedding.length)
      else validateAfterDim sqrtQ v embedding context
    | none => validateAfterDim sqrtQ v embedding context

/-- One embedding update request, from `EmbeddingUpdate` in
`src/surreal_client.rs`. -/
structure EmbeddingUpdate where
  repo_id : String
  embedding : List Rat
  deriving DecidableEq

/-- Result record of a batch write, from `BatchUpdateResult` in
`src/surreal_client.rs`; the duration is a natural number of clock units. -/
structure BatchUpdateResult where
  total : Nat
  successful : Nat
  failed : Nat
  duration : Nat
  deriving DecidableEq

/-- `BatchUpdateResult::default()`: all counters zero. -/
def defaultBatchUpdateResult : BatchUpdateResult :=
  { total := 0, successful := 0, failed := 0, duration := 0 }

/-- Database effects a client call can perform: acquiring a pooled session
and running a query. -/
inductive DbCall where
  | acquireSession
  | runQuery (q : String)
  deriving DecidableEq

/-- Outcomes of the database interactions of one batch write: whether the
pooled session is acquired, whether the transaction script succeeds, and the
outcome of each fallback per-row update. -/
structure DbEnv where
  acquire_ok : Bool
  transaction_ok : Bool
  single_ok : Nat → Bool

/-- The multi-statement transaction script built by
`batch_update_with_transaction`. -/
def batchUpdateScript (updates : List EmbeddingUpdate) : String :=
  ((List.range updates.length).map (fun i =>
      "UPDATE $repo_" ++ toString i ++ " SET embedding = $embedding_" ++
        toString i ++ ", embedding_generated_at = time::now();\n")).foldl
    (fun a b => a ++ b) "BEGIN TRANSACTION;\n" ++ "COMMIT TRANSACTION;"

/-- `SurrealClient::batch_update_with_transaction`: acquires one session,
then runs the whole script as one query; a successful transaction counts
every update as successful.  Returns the result and the trace of database
calls made. -/
def batch_update_with_transaction (env : DbEnv) (updates : List EmbeddingUpdate) :
    Except String Nat × List DbCall :=
  if env.acquire_ok = false then
    (.error "pool acquire failed", [DbCall.acquireSession])
  else if env.transaction_ok then
    (.ok updates.length,
      [DbCall.acquireSession, DbCall.runQuery (batchUpdateScript updates)])
  else
    (.error "transaction failed",
      [DbCall.acquireSession, DbCall.runQuery (batchUpdateScript updates)])

/-- `SurrealClient::fallback_individual_updates`: one `update_repo_embedding`
per update, counting successes and failures.  Each per-row update is
modelled as one session acquisition and one query, with outcome
`env.single_ok i` for the i-th row. -/
def fallback_individual_updates (single_ok : Nat → Bool) :
    Nat → List EmbeddingUpdate → (Nat × Nat × List DbCall)
  | _, [] => (0, 0, [])
  | i, u :: rest =>
    let r := fallback_individual_updates single_ok (i + 1) rest
    let calls := [DbCall.acquireSession,
      DbCall.runQuery ("UPDATE " ++ u.repo_id ++
        " SET embedding = $embedding, embedding_generated_at = time::now()")]
    if single_ok i then (r.1 + 1, r.2.1, calls ++ r.2.2)
    else (r.1, r.2.1 + 1, calls ++ r.2.2)

/-- `SurrealClient::batch_update_embeddings` from `src/surreal_client.rs`:
an empty update list returns the default (all-zero) result at once, without
any database call; otherwise the transactional path is tried and, on error,
the per-row fallback.  The second component is the trace of database calls
performed. -/
def batch_update_embeddings (env : DbEnv) (updates : List EmbeddingUpdate) :
    Except String BatchUpdateResult × List DbCall :=
  if updates.isEmpty then (.ok defaultBatchUpdateResult, [])
  else
    let total := updates.length
    match batch_update_with_transaction env updates with
    | (.ok successful, calls) =>
      (.ok { total := total, successful := successful,
             failed := total - successful, duration := 0 }, calls)
    | (.error _, calls) =>
      let fb := fallback_individual_updates env.single_ok 0 updates
      (.ok { total := fb.1 + fb.2.1, successful := fb.1,
             failed := fb.2.1, duration := 0 }, calls ++ fb.2.2)

/-- Observable events of one record's lifecycle: the `try_acquire_lock`
call, the (retried) embedder invocation, the write-back of the embedding,
and the lock release with its terminal status. -/
inductive Ev where
  | acquire (id : String)
  | embed (id : String)
  | write (id : String)
  | release (id : String) (status : String)
  deriving DecidableEq

/-- Position of an event in the per-record lifecycle order. -/
def evStage : Ev → Nat
  | .acquire _ => 0
  | .embed _ => 1
  | .write _ => 2
  | .release _ _ => 3

/-- Whether an event is a lock acquisition. -/
def isAcquireEv : Ev → Bool
  | .acquire _ => true
  | _ => false

/-- Environment of one record in the binary's per-record lifecycle
(`process_batch` in `src/main.rs`): the outcome of `try_acquire_lock`, of
`wait_for_permit`, the circuit breaker admission, the (retried) embedder
outcome, the validator verdict, and the (retried) write-back outcome. -/
structure RecEnv where
  lock : Except Unit Bool
  rate : Except Unit Unit
  allow : Bool
  embedResult : Except Unit (List Rat)
  valid : Bool
  updateResult : Except Unit Unit

/-- Event trace of the body of the per-record loop of `process_batch` in
`src/main.rs`.  A lock error or `acquired = false` skips the record after
the `try_acquire_lock` call; a rate-limiter error skips it without a release
(the guard only warns on drop); a circuit-breaker rejection yields a
`ServiceUnavailable` error without invoking the embedder; embedder and
validation failures release the lock with status `"failed"`; after a
successful validation the embedding is written back and the lock released
with `"completed"` (or `"failed"` when the write-back fails).  The retried
embedder call is modelled as a single `embed` event. -/
def processRecordMain (id : String) (env : RecEnv) : List Ev :=
  match env.lock with
  | .error _ => [.acquire id]
  | .ok false => [.acquire id]
  | .ok true =>
    match env.rate with
    | .error _ => [.acquire id]
    | .ok _ =>
      if env.allow = false then [.acquire id, .release id "failed"]
      else
        match env.embedResult with
        | .error _ => [.acquire id, .embed id, .release id "failed"]
        | .ok _ =>
          if env.valid = false then [.acquire id, .embed id, .release id "failed"]
          else
            match env.updateResult with
            | .ok _ => [.acquire id, .embed id, .write id, .release id "completed"]
            | .error _ => [.acquire id, .embed id, .write id, .release id "failed"]

/-- Environment of one record in the library worker's lifecycle
(`process_batch` in `src/process_batch.rs`): cache lookup outcome,
rate-limiter outcome, circuit-breaker admission, embedder outcome and
validator verdict.  This lifecycle has no lock manager at all. -/
structure LibRecEnv where
  cacheHit : Option (List Rat)
  rate : Except Unit Unit
  allow : Bool
  embedResult : Except Unit (List Rat)
  valid : Bool

/-- Event trace of the body of the per-record loop of `process_batch` in
`src/process_batch.rs` (the worker spawned by `src/service.rs`).  A cache
hit stages the cached vector; otherwise, after rate and circuit-breaker
admission, the embedder is invoked — with no `try_acquire_lock` call
anywhere in this lifecycle (write-back is batched after the loop and is not
a per-record event here). -/
def processRecordLib (id : String) (env : LibRecEnv) : List Ev :=
  match env.cacheHit with
  | some _ => []
  | none =>
    match env.rate with
    | .error _ => []
    | .ok _ =>
      if env.allow = false then []
      else [.embed id]

/-! Theorems.  Generic list lemmas used by several proofs come first, then
one theorem per checked property (with witness or counterexample where
required). -/

theorem findEntry_eraseKey_self (k : String) (es : List (String × CacheEntry)) :
    findEntry k (eraseKey k es) = none := by
  induction es with
  | nil => rfl
  | cons p rest ih =>
    by_cases h : p.1 = k <;> simp [eraseKey, findEntry, h, ih]

theorem findEntry_eraseKey_ne (k k0 : String) (es : List (String × CacheEntry))
    (h : k ≠ k0) : findEntry k (eraseKey k0 es) = findEntry k es := by
  have h' : k0 ≠ k := fun hk => h hk.symm
  induction es with
  | nil => rfl
  | cons p rest ih =>
    by_cases h1 : p.1 = k0
    · simp [eraseKey, findEntry, h1, h', ih]
    · by_cases h2 : p.1 = k <;> simp [eraseKey, findEntry, h1, h2, h, h', ih]

theorem eraseKey_of_not_mem (k : String) (es : List (String × CacheEntry))
    (h : k ∉ es.map Prod.fst) : eraseKey k es = es := by
  induction es with
  | nil => rfl
  | cons p rest ih =>
    simp only [List.map_cons, List.mem_cons] at h
    push_neg at h
    have h1 : p.1 ≠ k := fun hp => h.1 hp.symm
    simp [eraseKey, h1, ih h.2]

theorem findEntry_isSome_iff_mem (k : String) (es : List (String × CacheEntry)) :
    (findEntry k es).isSome = true ↔ k ∈ es.map Prod.fst := by
  induction es with
  | nil => simp [findEntry]
  | cons p rest ih =>
    by_cases h : p.1 = k
    · simp [findEntry, h]
    · have h' : k ≠ p.1 := fun hk => h hk.symm
      simp [findEntry, h, ih, h']

theorem length_eraseKey_of_mem (k : String) (es : List (String × CacheEntry))
    (hnd : (es.map Prod.fst).Nodup) (hmem : k ∈ es.map Prod.fst) :
    (eraseKey k es).length + 1 = es.length := by
  induction es with
  | nil => simp at hmem
  | cons p rest ih =>
    simp only [List.map_cons, List.nodup_cons] at hnd
    by_cases h : p.1 = k
    · have hk : k ∉ rest.map Prod.fst := by rw [← h]; exact hnd.1
      simp [eraseKey, h, eraseKey_of_not_mem k rest hk]
    · simp only [List.map_cons, List.mem_cons] at hmem
      rcases hmem with hmem | hmem
      · exact absurd hmem.symm h
      · simp [eraseKey, h, ih hnd.2 hmem]

theorem findEntry_insert_self (k : String) (e : CacheEntry)
    (es : List (String × CacheEntry)) :
    findEntry k (insertEntry k e es) = some e := by
  induction es with
  | nil => simp [insertEntry, findEntry]
  | cons p rest ih =>
    by_cases h : p.1 = k <;> simp [insertEntry, findEntry, h, ih]

theorem findEntry_insert_ne (k k1 : String) (e : CacheEntry)
    (es : List (String × CacheEntry)) (h : k ≠ k1) :
    findEntry k (insertEntry k1 e es) = findEntry k es := by
  have h' : k1 ≠ k := fun hk => h hk.symm
  induction es with
  | nil => simp [insertEntry, findEntry, h']
  | cons p rest ih =>
    by_cases h1 : p.1 = k1
    · simp [insertEntry, findEntry, h1, h', ih]
    · by_cases h2 : p.1 = k <;> simp [insertEntry, findEntry, h1, h2, h, h', ih]

theorem length_insert_of_not_mem (k : String) (e : CacheEntry)
    (es : List (String × CacheEntry)) (h : findEntry k es = none) :
    (insertEntry k e es).length = es.length + 1 := by
  induction es with
  | nil => simp [insertEntry]
  | cons p rest ih =>
    by_cases h1 : p.1 = k
    · simp [findEntry, h1] at h
    · simp only [findEntry, h1, if_neg h1] at h
      simp [insertEntry, h1, ih h]

theorem evictLoop_of_lt (max_size : Nat) (es : List (String × CacheEntry))
    (order : List String) (h : es.length < max_size) :
    evictLoop max_size es order = (es, order) := by
  cases order with
  | nil => rfl
  | cons k rest => simp [evictLoop, Nat.not_le.mpr h]

theorem strLen_nil : strLen [] = 0 := rfl

theorem strLen_append (s t : List Nat) : strLen (s ++ t) = strLen s + strLen t := by
  simp [strLen]

theorem strLen_of_ascii (s : List Nat) (h : ∀ c ∈ s, utf8Size c = 1) :
    strLen s = s.length := by
  induction s with
  | nil => rfl
  | cons c rest ih =>
    have hc : utf8Size c = 1 := h c (List.mem_cons_self c rest)
    have hr := ih (fun x hx => h x (List.mem_cons_of_mem c hx))
    simp [strLen] at hr ⊢
    omega

theorem retryFrom_count_le {T : Type} (op : Nat → Except EmbedError T) :
    ∀ r k, (retryFrom op r k).2 ≤ k + r + 1 := by
  intro r
  induction r with
  | zero =>
    intro k
    unfold retryFrom
    cases op k with
    | ok v => simp
    | error e => by_cases h : e.is_retryable <;> simp [h]
  | succ r ih =>
    intro k
    unfold retryFrom
    cases op k with
    | ok v => simp
    | error e =>
      by_cases h : e.is_retryable
      · simpa [h] using le_trans (ih (k + 1)) (by omega)
      · simp [h]

theorem retryFrom_first_nonretryable {T : Type} (op : Nat → Except EmbedError T) :
    ∀ (j r k : Nat) (e : EmbedError),
      (∀ i, i < j → ∃ e', op (k + i) = .error e' ∧ e'.is_retryable = true) →
      op (k + j) = .error e → e.is_retryable = false → j ≤ r →
      retryFrom op r k = (.error e, k + j + 1) := by
  intro j
  induction j with
  | zero =>
    intro r k e _ hop hret _
    unfold retryFrom
    simp only [Nat.add_zero] at hop
    rw [hop]
    simp [hret]
  | succ j ih =>
    intro r k e hpre hop hret hle
    obtain ⟨e0, he0, hr0⟩ := hpre 0 (Nat.succ_pos j)
    simp only [Nat.add_zero] at he0
    obtain ⟨r', rfl⟩ : ∃ r', r = r' + 1 := by
      cases r with
      | zero => omega
      | succ r' => exact ⟨r', rfl⟩
    unfold retryFrom
    rw [he0]
    simp only [hr0, if_true]
    have hpre' : ∀ i, i < j → ∃ e', op (k + 1 + i) = .error e' ∧ e'.is_retryable = true := by
      intro i hi
      have := hpre (i + 1) (by omega)
      simpa [Nat.add_assoc, Nat.add_comm 1 i] using this
    have hop' : op (k + 1 + j) = .error e := by
      have : k + 1 + j = k + (j + 1) := by omega
      rw [this]; exact hop
    have := ih r' (k + 1) e hpre' hop' hret (by omega)
    rw [this]
    simp only [Prod.mk.injEq]
    exact ⟨trivial, by omega⟩

theorem retryFrom_first_success {T : Type} (op : Nat → Except EmbedError T) :
    ∀ (j r k : Nat) (v : T),
      (∀ i, i < j → ∃ e', op (k + i) = .error e' ∧ e'.is_retryable = true) →
      op (k + j) = .ok v → j ≤ r →
      retryFrom op r k = (.ok v, k + j + 1) := by
  intro j
  induction j with
  | zero =>
    intro r k v _ hop _
    unfold retryFrom
    simp only [Nat.add_zero] at hop
    rw [hop]
  | succ j ih =>
    intro r k v hpre hop hle
    obtain ⟨e0, he0, hr0⟩ := hpre 0 (Nat.succ_pos j)
    simp only [Nat.add_zero] at he0
    obtain ⟨r', rfl⟩ : ∃ r', r = r' + 1 := by
      cases r with
      | zero => omega
      | succ r' => exact ⟨r', rfl⟩
    unfold retryFrom
    rw [he0]
    simp only [hr0, if_true]
    have hpre' : ∀ i, i < j → ∃ e', op (k + 1 + i) = .error e' ∧ e'.is_retryable = true := by
      intro i hi
      have := hpre (i + 1) (by omega)
      simpa [Nat.add_assoc, Nat.add_comm 1 i] using this
    have hop' : op (k + 1 + j) = .ok v := by
      have : k + 1 + j = k + (j + 1) := by omega
      rw [this]; exact hop
    have := ih r' (k + 1) v hpre' hop' (by omega)
    rw [this]
    simp only [Prod.mk.injEq]
    exact ⟨trivial, by omega⟩

/-- C2, counterexample: the claim states that `EmbeddingProvider` errors are
retryable, but `is_retryable` returns `false` on a concrete
`EmbeddingProvider` error (the `matches!` in `src/error.rs` does not list
that variant). -/
theorem C2_counterexample :
    EmbedError.is_retryable (.EmbeddingProvider "provider returned empty result") =
      false := rfl

/-- C2, amended: `is_retryable` returns `true` exactly for the `Database`,
`Http` (transport), `RateLimitExceeded` and `ServiceUnavailable` variants,
and `false` for `EmbeddingProvider`, `Configuration`, `InvalidDimension` and
`Internal` errors. -/
theorem C2_is_retryable_exact (e : EmbedError) :
    e.is_retryable = true ↔
      ((∃ m, e = .Database m) ∨ (∃ m, e = .Http m) ∨
        (∃ p, e = .RateLimitExceeded p) ∨ (∃ m, e = .ServiceUnavailable m)) := by
  cases e <;> simp [EmbedError.is_retryable]

/-- C10: `needs_embedding` is `false` exactly when the embedding is present,
`embedding_generated_at` is present, and `updated_at` is not later than it;
in particular a present embedding with an absent `embedding_generated_at`
still needs embedding. -/
theorem C10_needs_embedding (r : Repo) :
    (r.needs_embedding = false ↔
      r.embedding.isSome = true ∧
        ∃ t, r.embedding_generated_at = some t ∧ r.updated_at ≤ t) ∧
    (r.embedding.isSome = true → r.embedding_generated_at = none →
      r.needs_embedding = true) := by
  constructor
  · cases he : r.embedding with
    | none => simp [Repo.needs_embedding, he]
    | some v =>
      cases hg : r.embedding_generated_at with
      | none => simp [Repo.needs_embedding, he, hg]
      | some t => simp [Repo.needs_embedding, he, hg, Nat.not_lt]
  · intro he hg
    simp [Repo.needs_embedding, hg]

/-- C10, witness: a repository with an embedding but no
`embedding_generated_at` needs embedding. -/
theorem C10_witness :
    Repo.needs_embedding
      { id := "repo:r1", github_id := 1, name := "b", full_name := "a/b",
        description := none, url := "u", stars := 1,
        language := none, owner := { login := "a", avatar_url := "v" },
        is_private := false, created_at := 0, updated_at := 5,
        embedding := some [1, 2], embedding_generated_at := none } = true :=
  (C10_needs_embedding _).2 rfl rfl

/-- C9: a batch update of the empty list returns the all-zero result and
performs no database call at all (no session acquisition, no query). -/
theorem C9_empty_batch (env : DbEnv) :
    batch_update_embeddings env [] =
      (.ok { total := 0, successful := 0, failed := 0, duration := 0 }, []) ∧
    (batch_update_embeddings env []).2 = [] := by
  constructor <;> rfl

/-- C5, counterexample: with `token_limit = 9` and a text of three four-byte
characters (code point 0x1D6C2, byte length 12), the claim's premise holds
(`strLen text > token_limit`) but the truncated text has byte length 15 and
character count 6, neither of which equals `token_limit`. -/
theorem C5_counterexample :
    strLen [0x1D6C2, 0x1D6C2, 0x1D6C2] > 9 ∧
    strLen (truncate_text 9 [0x1D6C2, 0x1D6C2, 0x1D6C2]) ≠ 9 ∧
    (truncate_text 9 [0x1D6C2, 0x1D6C2, 0x1D6C2]).length ≠ 9 := by decide

/-- C5, amended: texts whose byte length is within `token_limit` are
returned unchanged; for longer texts, when `token_limit ≥ 3` and every
character is a single byte (ASCII), the result has byte length exactly
`token_limit` and ends in the three-character ellipsis. -/
theorem C5_truncate (token_limit : Nat) (text : List Nat) :
    (strLen text ≤ token_limit → truncate_text token_limit text = text) ∧
    (strLen text > token_limit → 3 ≤ token_limit →
      (∀ c ∈ text, utf8Size c = 1) →
      strLen (truncate_text token_limit text) = token_limit ∧
        ∃ p, truncate_text token_limit text = p ++ ellipsis) := by
  constructor
  · intro h
    simp [truncate_text, h]
  · intro hgt h3 hascii
    have hne : ¬ strLen text ≤ token_limit := Nat.not_le.mpr hgt
    have hlen : strLen text = text.length := strLen_of_ascii text hascii
    have htake : ∀ c ∈ text.take (token_limit - 3), utf8Size c = 1 :=
      fun c hc => hascii c (List.mem_of_mem_take hc)
    have htakelen : (text.take (token_limit - 3)).length = token_limit - 3 := by
      rw [List.length_take]
      omega
    constructor
    · rw [truncate_text, if_neg hne, strLen_append,
        strLen_of_ascii _ htake, htakelen]
      have : strLen ellipsis = 3 := rfl
      omega
    · exact ⟨text.take (token_limit - 3), by rw [truncate_text, if_neg hne]⟩

/-- C5, witness: an ASCII text of 7 characters truncated at limit 5 gives a
5-byte result ending in the ellipsis. -/
theorem C5_witness :
    strLen (truncate_text 5 [97, 98, 99, 100, 101, 102, 103]) = 5 ∧
    ∃ p, truncate_text 5 [97, 98, 99, 100, 101, 102, 103] = p ++ ellipsis :=
  (C5_truncate 5 [97, 98, 99, 100, 101, 102, 103]).2 (by decide) (by decide)
    (by decide)

/-- C8: for any schedule of operation outcomes, (i) if the first `j`
invocations fail with retryable errors and invocation `j ≤ max_retries`
fails with a non-retryable error, that error is returned after exactly
`j + 1` invocations (none after it); (ii) if instead invocation `j` is the
first success, its value is returned after exactly `j + 1` invocations;
(iii) the operation is never invoked more than `max_retries + 1` times. -/
theorem C8_with_retry {T : Type} (op : Nat → Except EmbedError T)
    (max_retries : Nat) :
    (∀ (j : Nat) (e : EmbedError),
      (∀ i, i < j → ∃ e', op i = .error e' ∧ e'.is_retryable = true) →
      op j = .error e → e.is_retryable = false → j ≤ max_retries →
      with_retry max_retries op = (.error e, j + 1)) ∧
    (∀ (j : Nat) (v : T),
      (∀ i, i < j → ∃ e', op i = .error e' ∧ e'.is_retryable = true) →
      op j = .ok v → j ≤ max_retries →
      with_retry max_retries op = (.ok v, j + 1)) ∧
    (with_retry max_retries op).2 ≤ max_retries + 1 := by
  refine ⟨fun j e hpre hop hret hle => ?_, fun j v hpre hop hle => ?_, ?_⟩
  · have := retryFrom_first_nonretryable op j max_retries 0 e
      (by simpa using hpre) (by simpa using hop) hret hle
    simpa [with_retry] using this
  · have := retryFrom_first_success op j max_retries 0 v
      (by simpa using hpre) (by simpa using hop) hle
    simpa [with_retry] using this
  · simpa [with_retry] using retryFrom_count_le op max_retries 0

/-- C8, witness: a schedule failing twice with retryable errors and then
succeeding returns the success after three invocations, and a schedule that
fails non-retryably at once returns that error after a single invocation. -/
theorem C8_witness :
    with_retry 3 (fun k =>
        if k < 2 then Except.error (EmbedError.ServiceUnavailable "test error")
        else Except.ok (42 : Nat)) = (.ok 42, 3) ∧
    with_retry 3 (fun _ => (Except.error (EmbedError.Configuration
        "non-retryable") : Except EmbedError Nat)) =
      (.error (.Configuration "non-retryable"), 1) := by
  constructor
  · exact (C8_with_retry (fun k =>
      if k < 2 then Except.error (EmbedError.ServiceUnavailable "test error")
      else Except.ok (42 : Nat)) 3).2.1 2 42
      (by
        intro i hi
        exact ⟨EmbedError.ServiceUnavailable "test error", by simp [hi], rfl⟩)
      (by simp) (by omega)
  · exact (C8_with_retry (fun _ => (Except.error (EmbedError.Configuration
      "non-retryable") : Except EmbedError Nat)) 3).1 0
      (.Configuration "non-retryable") (by omega) rfl rfl (by omega)

/-- C6: from `Closed`, neither `should_allow_request` nor `record_success`
nor a reset can move a breaker to `Open`; `record_failure` moves it to
`Open` exactly when, counting the failure being recorded, the consecutive
failure count reaches `failure_threshold`, or the request total reaches
`min_requests` and the failure rate reaches `failure_rate_threshold`. -/
theorem C6_closed_to_open (cb : CircuitBreaker) (now : Nat)
    (h : cb.state = .Closed) :
    (cb.should_allow_request now).2.state ≠ .Open ∧
    (cb.record_success now).state ≠ .Open ∧
    (cb.resetBreaker now).state ≠ .Open ∧
    ((cb.record_failure now).state = .Open ↔
      cb.stats.consecutive_failures + 1 ≥ cb.config.failure_threshold ∨
        (cb.stats.total_requests + 1 ≥ cb.config.min_requests ∧
          ((cb.stats.failed_requests + 1 : Nat) : Rat) /
              ((cb.stats.total_requests + 1 : Nat) : Rat) ≥
            cb.config.failure_rate_threshold)) := by
  refine ⟨?_, ?_, ?_, ?_⟩
  · simp [CircuitBreaker.should_allow_request, h]
  · simp [CircuitBreaker.record_success, h]
  · simp [CircuitBreaker.resetBreaker]
  · simp only [CircuitBreaker.record_failure, h]
    split_ifs with h1 h2 h3 <;>
      simp_all [CircuitBreaker.transition_to]

/-- C6, witness: a closed breaker with four consecutive failures and
threshold five opens on the next recorded failure. -/
theorem C6_witness :
    (CircuitBreaker.record_failure
      { state := .Closed,
        stats := { total_requests := 10, failed_requests := 4,
                   successful_requests := 6, consecutive_failures := 4,
                   last_failure_time := none, state_changes := 0 },
        config := { failure_threshold := 5, timeout_duration := 60,
                    success_threshold := 3,
                    failure_rate_threshold := (1 : Rat) / 2,
                    min_requests := 20 },
        last_state_change := 0, half_open_successes := 0 } 7).state = .Open :=
  ((C6_closed_to_open _ 7 rfl).2.2.2).mpr (Or.inl (by decide))

theorem not_mem_removeAll (k : String) (l : List String) :
    k ∉ removeAll k l := by
  induction l with
  | nil => simp [removeAll]
  | cons x rest ih =>
    by_cases h : x = k
    · simpa [removeAll, h] using ih
    · simp [removeAll, h, ih]
      exact fun hk => h hk.symm

/-- C7: for a key present in the cache, `get` past the TTL returns a miss
and synchronously removes the entry from both the map and the access order;
`get` within the TTL returns the stored vector and model, and the stored
entry has its `last_accessed` set to the current time and its hit counter
incremented. -/
theorem C7_get_ttl (c : EmbeddingCache) (now : Nat) (key : String)
    (e : CacheEntry) (hfind : findEntry key c.entries = some e) :
    (now - e.created_at > c.ttl →
      (c.get now key).1 = none ∧
      findEntry key (c.get now key).2.entries = none ∧
      key ∉ (c.get now key).2.access_order) ∧
    (now - e.created_at ≤ c.ttl →
      (c.get now key).1 = some (e.embedding, e.model) ∧
      findEntry key (c.get now key).2.entries =
        some { e with last_accessed := now, access_count := e.access_count + 1 }) := by
  constructor
  · intro hgt
    refine ⟨?_, ?_, ?_⟩ <;>
      simp [EmbeddingCache.get, hfind, hgt, findEntry_eraseKey_self,
        not_mem_removeAll]
  · intro hle
    have hno : ¬ now - e.created_at > c.ttl := Nat.not_lt.mpr hle
    refine ⟨?_, ?_⟩ <;>
      simp [EmbeddingCache.get, hfind, hno, findEntry_insert_self]

/-- C7, witness: an entry created at time 0 with TTL 60 is a miss at time
100 and is removed from the cache. -/
theorem C7_witness :
    (EmbeddingCache.get
        ⟨[("a/b:m", ⟨[1], "m", 0, 0, 0⟩)], ["a/b:m"], 2, 60⟩ 100 "a/b:m").1 =
        none ∧
    findEntry "a/b:m" (EmbeddingCache.get
        ⟨[("a/b:m", ⟨[1], "m", 0, 0, 0⟩)], ["a/b:m"], 2, 60⟩
        100 "a/b:m").2.entries = none ∧
    "a/b:m" ∉ (EmbeddingCache.get
        ⟨[("a/b:m", ⟨[1], "m", 0, 0, 0⟩)], ["a/b:m"], 2, 60⟩
        100 "a/b:m").2.access_order :=
  (C7_get_ttl _ 100 "a/b:m" ⟨[1], "m", 0, 0, 0⟩ (by decide)).1 (by decide)

/-- C3: whenever a vector reaches the variance check — it is non-empty, has
the expected dimension when one is configured, contains only finite values,
its magnitude is within bounds and its zero share within bounds — a
variance below 10⁻⁶ makes `validate` fail with the validation error of the
no-variance check.  The statement holds for every interpretation `sqrtQ` of
the square root used by the magnitude checks. -/
theorem C3_low_variance_fails (sqrtQ : Rat → Rat) (v : EmbeddingValidator)
    (embedding : List F32) (context : String)
    (h_nonempty : embedding.isEmpty = false)
    (h_dim : ∀ d, v.expected_dimension = some d → embedding.length = d)
    (h_fin : ∀ x ∈ embedding, x.isFinite = true)
    (h_mag_lo : ¬ sqrtQ (sumSquares (embedding.map F32.toRat)) < v.min_magnitude)
    (h_mag_hi : ¬ sqrtQ (sumSquares (embedding.map F32.toRat)) > v.max_magnitude)
    (h_zero : ¬ zeroFraction (embedding.map F32.toRat) > v.max_zero_fraction)
    (h_var : varianceOf (embedding.map F32.toRat) < (1 : Rat) / 1000000) :
    validate sqrtQ v embedding context =
      .error (.InvalidEmbedding
        (context ++ ": Variance too low, all values nearly identical")) := by
  have hfilter : embedding.filter (fun x => !x.isFinite) = [] := by
    rw [List.filter_eq_nil_iff]
    intro a ha
    simp [h_fin a ha]
  have htail : validateAfterDim sqrtQ v embedding context =
      .error (.InvalidEmbedding
        (context ++ ": Variance too low, all values nearly identical")) := by
    rw [validateAfterDim, hfilter]
    simp only [List.length_nil, gt_iff_lt, Nat.lt_irrefl, if_false]
    rw [if_neg h_mag_lo, if_neg h_mag_hi, if_neg h_zero, if_pos h_var]
  rw [validate, if_neg (by simp [h_nonempty])]
  cases hd : v.expected_dimension with
  | none => exact htail
  | some d => simp [h_dim d hd, htail]

/-- C3, witness: with an identity-free square root interpretation fixed at
1, a three-element constant vector within all other bounds fails the
no-variance check. -/
theorem C3_witness :
    validate (fun _ => 1) ⟨none, (1 : Rat) / 10, 10, (1 : Rat) / 2⟩
      [F32.val ((3 : Rat) / 10), F32.val ((3 : Rat) / 10),
        F32.val ((3 : Rat) / 10)] "w" =
      .error (.InvalidEmbedding
        ("w" ++ ": Variance too low, all values nearly identical")) :=
  C3_low_variance_fails (fun _ => 1) ⟨none, (1 : Rat) / 10, 10, (1 : Rat) / 2⟩
    [F32.val ((3 : Rat) / 10), F32.val ((3 : Rat) / 10),
      F32.val ((3 : Rat) / 10)] "w"
    (by decide) (by intro d hd; cases hd) (by decide)
    (by norm_num) (by norm_num)
    (by
      have hb : (((3 : Rat) / 10) == 0) = false := by
        rw [beq_eq_false_iff_ne]
        norm_num
      norm_num [zeroFraction, List.filter, hb, F32.toRat])
    (by norm_num [varianceOf, meanOf, F32.toRat])

/-- C4: putting a fresh key into a well-formed cache that is exactly at
capacity (with `max_size ≥ 1`) evicts exactly one existing entry — the
front of the access order, whose `last_accessed` is minimal among all
entries — keeps every other entry, keeps the cache at capacity, and inserts
the fresh entry at the most-recently-used end. -/
theorem C4_put_lru (c : EmbeddingCache) (now : Nat) (key : String)
    (emb : List Rat) (model : String)
    (hwf : CacheWF c) (hfull : c.entries.length = c.max_size)
    (hpos : 1 ≤ c.max_size) (hfresh : findEntry key c.entries = none) :
    ∃ k0 rest, c.access_order = k0 :: rest ∧
      (findEntry k0 c.entries).isSome = true ∧
      findEntry k0 (c.put now key emb model).entries = none ∧
      (∀ k, k ≠ k0 → k ≠ key →
        findEntry k (c.put now key emb model).entries = findEntry k c.entries) ∧
      (c.put now key emb model).entries.length = c.entries.length ∧
      (∀ k e, findEntry k c.entries = some e →
        lastAccessedOf c.entries k0 ≤ e.last_accessed) ∧
      (c.put now key emb model).access_order = rest ++ [key] ∧
      findEntry key (c.put now key emb model).entries =
        some ⟨emb, model, now, now, 0⟩ := by
  have hlenord : c.access_order.length = c.entries.length := by
    rw [hwf.order_perm.length_eq, List.length_map]
  cases ho : c.access_order with
  | nil =>
    exfalso
    rw [ho] at hlenord
    simp at hlenord
    omega
  | cons k0 rest =>
    refine ⟨k0, rest, rfl, ?_⟩
    have hk0order : k0 ∈ c.access_order := by rw [ho]; exact List.mem_cons_self k0 rest
    have hk0keys : k0 ∈ c.entries.map Prod.fst := hwf.order_perm.mem_iff.mp hk0order
    have hk0some : (findEntry k0 c.entries).isSome = true :=
      (findEntry_isSome_iff_mem k0 c.entries).mpr hk0keys
    have hk0key : k0 ≠ key := by
      intro hk
      rw [hk] at hk0some
      rw [hfresh] at hk0some
      simp at hk0some
    have herase : (eraseKey k0 c.entries).length + 1 = c.entries.length :=
      length_eraseKey_of_mem k0 c.entries hwf.keys_nodup hk0keys
    have hev : evictLoop c.max_size c.entries (k0 :: rest) =
        (eraseKey k0 c.entries, rest) := by
      have hge : c.entries.length ≥ c.max_size := Nat.le_of_eq hfull.symm
      rw [evictLoop, if_pos hge]
      exact evictLoop_of_lt c.max_size (eraseKey k0 c.entries) rest (by omega)
    have hput : c.put now key emb model =
        { c with
          entries := insertEntry key ⟨emb, model, now, now, 0⟩
            (eraseKey k0 c.entries)
          access_order := rest ++ [key] } := by
      rw [EmbeddingCache.put, ho, hev]
    have hfresh' : findEntry key (eraseKey k0 c.entries) = none := by
      rw [findEntry_eraseKey_ne key k0 c.entries (fun hk => hk0key hk.symm), hfresh]
    refine ⟨hk0some, ?_, ?_, ?_, ?_, ?_, ?_⟩
    · rw [hput]
      simp only
      rw [findEntry_insert_ne k0 key _ _ hk0key, findEntry_eraseKey_self]
    · intro k hk0 hkey
      rw [hput]
      simp only
      rw [findEntry_insert_ne k key _ _ hkey, findEntry_eraseKey_ne k k0 _ hk0]
    · rw [hput]
      simp only
      rw [length_insert_of_not_mem key _ _ hfresh']
      omega
    · intro k e hk
      have hkkeys : k ∈ c.entries.map Prod.fst :=
        (findEntry_isSome_iff_mem k c.entries).mp (by rw [hk]; rfl)
      have hkorder : k ∈ c.access_order := hwf.order_perm.mem_iff.mpr hkkeys
      rw [ho] at hkorder
      have hsorted := hwf.sorted
      rw [ho, List.pairwise_cons] at hsorted
      rcases List.mem_cons.mp hkorder with hkk | hkk
      · subst hkk
        simp [lastAccessedOf, hk]
      · have hle := hsorted.1 k hkk
        calc lastAccessedOf c.entries k0 ≤ lastAccessedOf c.entries k := hle
          _ = e.last_accessed := by simp [lastAccessedOf, hk]
    · rw [hput]
    · rw [hput]
      simp only
      exact findEntry_insert_self key _ _

/-- C4, witness: a full two-entry cache with distinct access times evicts
exactly its least-recently-used entry when a fresh key is put. -/
theorem C4_witness :
    ∃ k0 rest,
      (⟨[("a", ⟨[1], "m", 1, 1, 0⟩), ("b", ⟨[2], "m", 2, 2, 0⟩)],
        ["a", "b"], 2, 60⟩ : EmbeddingCache).access_order = k0 :: rest ∧
      (findEntry k0 [("a", ⟨[1], "m", 1, 1, 0⟩),
        ("b", ⟨[2], "m", 2, 2, 0⟩)]).isSome = true ∧
      findEntry k0 ((⟨[("a", ⟨[1], "m", 1, 1, 0⟩), ("b", ⟨[2], "m", 2, 2, 0⟩)],
        ["a", "b"], 2, 60⟩ : EmbeddingCache).put 3 "c" [3] "m").entries = none ∧
      (∀ k, k ≠ k0 → k ≠ "c" →
        findEntry k ((⟨[("a", ⟨[1], "m", 1, 1, 0⟩), ("b", ⟨[2], "m", 2, 2, 0⟩)],
          ["a", "b"], 2, 60⟩ : EmbeddingCache).put 3 "c" [3] "m").entries =
          findEntry k [("a", ⟨[1], "m", 1, 1, 0⟩), ("b", ⟨[2], "m", 2, 2, 0⟩)]) ∧
      ((⟨[("a", ⟨[1], "m", 1, 1, 0⟩), ("b", ⟨[2], "m", 2, 2, 0⟩)],
        ["a", "b"], 2, 60⟩ : EmbeddingCache).put 3 "c" [3] "m").entries.length =
        ([("a", ⟨[1], "m", 1, 1, 0⟩), ("b", ⟨[2], "m", 2, 2, 0⟩)] :
          List (String × CacheEntry)).length ∧
      (∀ k e, findEntry k [("a", ⟨[1], "m", 1, 1, 0⟩),
          ("b", ⟨[2], "m", 2, 2, 0⟩)] = some e →
        lastAccessedOf [("a", ⟨[1], "m", 1, 1, 0⟩), ("b", ⟨[2], "m", 2, 2, 0⟩)] k0 ≤
          e.last_accessed) ∧
      ((⟨[("a", ⟨[1], "m", 1, 1, 0⟩), ("b", ⟨[2], "m", 2, 2, 0⟩)],
        ["a", "b"], 2, 60⟩ : EmbeddingCache).put 3 "c" [3] "m").access_order =
        rest ++ ["c"] ∧
      findEntry "c" ((⟨[("a", ⟨[1], "m", 1, 1, 0⟩), ("b", ⟨[2], "m", 2, 2, 0⟩)],
        ["a", "b"], 2, 60⟩ : EmbeddingCache).put 3 "c" [3] "m").entries =
        some ⟨[3], "m", 3, 3, 0⟩ :=
  C4_put_lru ⟨[("a", ⟨[1], "m", 1, 1, 0⟩), ("b", ⟨[2], "m", 2, 2, 0⟩)],
      ["a", "b"], 2, 60⟩ 3 "c" [3] "m"
    ⟨by decide, by decide, by decide⟩ (by decide) (by decide) (by decide)

/-- C1, counterexample: in the library worker's per-record lifecycle
(`process_batch` in `src/process_batch.rs`, the symbol the claim points at),
a record that misses the cache and passes rate and circuit admission has the
embedder invoked while no `try_acquire` lock call occurs anywhere in its
trace — the claim's "lock acquired before the embedder" fails because this
lifecycle takes no lock at all. -/
theorem C1_counterexample :
    processRecordLib "repo:r1" ⟨none, .ok (), true, .ok [1], true⟩ =
      [Ev.embed "repo:r1"] ∧
    ∀ ev ∈ processRecordLib "repo:r1" ⟨none, .ok (), true, .ok [1], true⟩,
      isAcquireEv ev = false := by
  constructor
  · rfl
  · intro ev hev
    simp [processRecordLib] at hev
    subst hev
    rfl

/-- C1, amended: in the binary's per-record lifecycle (`process_batch` in
`src/main.rs`) every trace starts with the `try_acquire` call; when the lock
is not acquired the record is skipped with no further event (in particular
the embedder is not invoked); and the events of one record always occur in
strictly increasing lifecycle order: acquire, then embedder invocation, then
write-back, then lock release.  The library worker's lifecycle
(`src/process_batch.rs`), by contrast, never performs a lock acquisition. -/
theorem C1_main_lifecycle (id : String) (env : RecEnv) :
    (processRecordMain id env).head? = some (.acquire id) ∧
    (env.lock = .ok false → processRecordMain id env = [.acquire id]) ∧
    ((processRecordMain id env).map evStage).Pairwise (· < ·) ∧
    (∀ env' : LibRecEnv, ∀ ev ∈ processRecordLib id env',
      isAcquireEv ev = false) := by
  obtain ⟨lock, rate, allow, embedR, valid, updateR⟩ := env
  refine ⟨?_, ?_, ?_, ?_⟩
  · rcases lock with u | b
    · rfl
    · cases b
      · rfl
      · rcases rate with u | u
        · rfl
        · cases allow
          · rfl
          · rcases embedR with u | v
            · rfl
            · cases valid
              · rfl
              · rcases updateR with u | u <;> rfl
  · intro h
    rcases lock with u | b
    · exact absurd h (by simp)
    · injection h with hb
      subst hb
      rfl
  · rcases lock with u | b
    · simp [processRecordMain, evStage]
    · cases b
      · simp [processRecordMain, evStage]
      · rcases rate with u | u
        · simp [processRecordMain, evStage]
        · cases allow
          · simp [processRecordMain, evStage]
          · rcases embedR with u | v
            · simp [processRecordMain, evStage]
            · cases valid
              · simp [processRecordMain, evStage]
              · rcases updateR with u | u <;>
                  simp [processRecordMain, evStage]
  · intro env' ev hev
    obtain ⟨hit, rate', allow', er', v'⟩ := env'
    rcases hit with _ | w
    · rcases rate' with u | u
      · simp [processRecordLib] at hev
      · cases allow'
        · simp [processRecordLib] at hev
        · simp [processRecordLib] at hev
          subst hev
          rfl
    · simp [processRecordLib] at hev

/-- C1, witness: a record whose lock attempt returns `acquired = false` is
skipped right after the `try_acquire` call. -/
theorem C1_witness :
    processRecordMain "repo:r1"
      ⟨.ok false, .ok (), true, .ok [1], true, .ok ()⟩ =
      [Ev.acquire "repo:r1"] :=
  (C1_main_lifecycle "repo:r1"
    ⟨.ok false, .ok (), true, .ok [1], true, .ok ()⟩).2.1 rfl

end EmbedStar
